import Mathlib

/-!
Verification of the star-node-stack-helper transaction-logging and
redaction pipeline.  Definitions are shallow embeddings of the
TypeScript sources; theorems settle the spec claims about them.
-/

namespace StarHelper

/-- JSON-compatible values as handled by the middleware: null, booleans,
numbers, strings, arrays and insertion-ordered string-keyed objects. -/
inductive Json where
  | null : Json
  | bool (b : Bool) : Json
  | num (n : Int) : Json
  | str (s : String) : Json
  | arr (elems : List Json) : Json
  | obj (fields : List (String × Json)) : Json

/-- The SENSITIVE_KEYS set from src/middlewares/transaction-logger.ts
(lines 32-43), in source order.  Membership there is tested with
Set.has, which is an exact, case-sensitive string comparison. -/
def SENSITIVE_KEYS : List String :=
  ["password", "newPassword", "token", "secret", "authorization",
   "cpf", "ssn", "creditCard", "cvv", "pin"]

/-- Marker substituted for values under sensitive keys. -/
def REDACTED_MARKER : String := "[REDACTED]"

/-- Marker substituted for subtrees past the depth limit. -/
def DEPTH_MARKER : String := "[DEPTH_LIMIT]"

/-- Recursion core of the sanitize closure of transaction-logger.ts
(lines 45-61), indexed by remaining fuel.  The source recurses with a
depth counter and returns the depth marker once depth exceeds 6; a call
at depth d corresponds to fuel 7 - d, so fuel 0 is exactly the
exhausted-depth case.  Arrays are truncated to 100 elements and each
element recursively sanitized; object entries whose key is (exactly) in
SENSITIVE_KEYS are replaced by the redaction marker, other entries are
recursively sanitized; scalars pass through. -/
def sanitizeGo : Nat → Json → Json
  | 0, _ => .str DEPTH_MARKER
  | _ + 1, .null => .null
  | _ + 1, .bool b => .bool b
  | _ + 1, .num n => .num n
  | _ + 1, .str s => .str s
  | fuel + 1, .arr xs => .arr ((xs.take 100).map (sanitizeGo fuel))
  | fuel + 1, .obj fs =>
      .obj (fs.map (fun kv =>
        if SENSITIVE_KEYS.contains kv.1 then (kv.1, Json.str REDACTED_MARKER)
        else (kv.1, sanitizeGo fuel kv.2)))

/-- The sanitize closure of transaction-logger.ts (lines 45-61): called
with a depth argument defaulting to 0, it returns the depth marker when
depth is greater than 6 and otherwise recurses with depth + 1. -/
def sanitize (v : Json) (depth : Nat := 0) : Json :=
  sanitizeGo (7 - depth) v

/-- The translation of sanitize satisfies the recurrence written in the
source: immediate depth-marker return when depth exceeds 6, pass-through
of scalars, 100-element array truncation with recursion at depth + 1,
and exact-match key redaction on objects. -/
theorem sanitize_eq (v : Json) (depth : Nat) :
    sanitize v depth =
      if 6 < depth then .str DEPTH_MARKER
      else match v with
        | .null => .null
        | .bool b => .bool b
        | .num n => .num n
        | .str s => .str s
        | .arr xs => .arr ((xs.take 100).map (fun x => sanitize x (depth + 1)))
        | .obj fs => .obj (fs.map (fun kv =>
            if SENSITIVE_KEYS.contains kv.1 then (kv.1, Json.str REDACTED_MARKER)
            else (kv.1, sanitize kv.2 (depth + 1)))) := by
  by_cases h : 6 < depth
  · have h0 : 7 - depth = 0 := by omega
    simp [sanitize, h0, sanitizeGo, h]
  · have h1 : ∃ f, 7 - depth = f + 1 ∧ 7 - (depth + 1) = f := by
      refine ⟨6 - depth, by omega, by omega⟩
    obtain ⟨f, hf, hf1⟩ := h1
    cases v <;> simp [sanitize, hf, hf1, sanitizeGo, h]

/-- Occurrence of a subvalue w at recursion depth n inside a value:
depth counts the array/object levels crossed, matching the depth
argument of the sanitize recursion. -/
inductive OccursAt : Json → Nat → Json → Prop where
  | refl (v : Json) : OccursAt v 0 v
  | arr {xs : List Json} {x w : Json} {n : Nat}
      (hx : x ∈ xs) (h : OccursAt x n w) : OccursAt (Json.arr xs) (n + 1) w
  | obj {fs : List (String × Json)} {kv : String × Json} {w : Json} {n : Nat}
      (hkv : kv ∈ fs) (h : OccursAt kv.2 n w) : OccursAt (Json.obj fs) (n + 1) w

theorem occursAt_str {s : String} {n : Nat} {w : Json}
    (h : OccursAt (Json.str s) n w) : n = 0 ∧ w = Json.str s := by
  cases h
  exact ⟨rfl, rfl⟩

theorem occursAt_scalar {v : Json} {n : Nat} {w : Json}
    (hv : ∀ xs, v ≠ Json.arr xs) (hv2 : ∀ fs, v ≠ Json.obj fs)
    (h : OccursAt v n w) : n = 0 ∧ w = v := by
  cases h with
  | refl => exact ⟨rfl, rfl⟩
  | arr hx h => exact absurd rfl (hv _)
  | obj hkv h => exact absurd rfl (hv2 _)

/-- Every object entry anywhere inside a sanitized output whose key is
an exact member of SENSITIVE_KEYS carries the redaction marker. -/
theorem sanitizeGo_sensitive_redacted :
    ∀ (fuel : Nat) (v : Json) (n : Nat) (fs : List (String × Json))
      (k : String) (x : Json),
      OccursAt (sanitizeGo fuel v) n (Json.obj fs) →
      (k, x) ∈ fs → SENSITIVE_KEYS.contains k → x = Json.str REDACTED_MARKER := by
  intro fuel
  induction fuel with
  | zero =>
    intro v n fs k x hocc _ _
    obtain ⟨-, h⟩ := occursAt_str hocc
    exact absurd h (by simp)
  | succ f ih =>
    intro v n fs k x hocc hmem hk
    cases v with
    | null => simp only [sanitizeGo] at hocc; cases hocc
    | bool b => simp only [sanitizeGo] at hocc; cases hocc
    | num m => simp only [sanitizeGo] at hocc; cases hocc
    | str s => simp only [sanitizeGo] at hocc; cases hocc
    | arr xs =>
      simp only [sanitizeGo] at hocc
      cases hocc with
      | arr hx h =>
        obtain ⟨y, -, rfl⟩ := List.mem_map.mp hx
        exact ih y _ fs k x h hmem hk
    | obj gs =>
      simp only [sanitizeGo] at hocc
      cases hocc with
      | refl =>
        obtain ⟨⟨k0, x0⟩, -, heq0⟩ := List.mem_map.mp hmem
        by_cases hs : SENSITIVE_KEYS.contains k0
        · rw [if_pos hs] at heq0
          exact ((Prod.mk.injEq _ _ _ _).mp heq0).2.symm
        · rw [if_neg hs] at heq0
          obtain ⟨hk0, -⟩ := (Prod.mk.injEq _ _ _ _).mp heq0
          rw [← hk0] at hk
          exact absurd hk hs
      | obj hkv h =>
        obtain ⟨⟨k0, x0⟩, -, heq0⟩ := List.mem_map.mp hkv
        by_cases hs : SENSITIVE_KEYS.contains k0
        · rw [if_pos hs] at heq0
          rw [← heq0] at h
          obtain ⟨-, hw⟩ := occursAt_str h
          exact absurd hw (by simp)
        · rw [if_neg hs] at heq0
          rw [← heq0] at h
          exact ih x0 _ fs k x h hmem hk

/-- Applying the sanitize recursion core twice with the same fuel gives
the same result as applying it once. -/
theorem sanitizeGo_idem : ∀ (fuel : Nat) (v : Json),
    sanitizeGo fuel (sanitizeGo fuel v) = sanitizeGo fuel v := by
  intro fuel
  induction fuel with
  | zero => intro v; simp [sanitizeGo]
  | succ f ih =>
    intro v
    cases v with
    | null => simp [sanitizeGo]
    | bool b => simp [sanitizeGo]
    | num m => simp [sanitizeGo]
    | str s => simp [sanitizeGo]
    | arr xs =>
      simp only [sanitizeGo, Json.arr.injEq]
      rw [← List.map_take, List.take_take]
      simp only [Nat.min_self, List.map_map]
      exact List.map_congr_left (fun x _ => ih x)
    | obj fs =>
      simp only [sanitizeGo, Json.obj.injEq, List.map_map]
      refine List.map_congr_left (fun kv _ => ?_)
      simp only [Function.comp_apply]
      by_cases hs : SENSITIVE_KEYS.contains kv.1
      · simp only [hs, if_true]
      · simp only [hs, Bool.false_eq_true, if_false, ih]

/-- Depth of any occurrence inside a sanitized output is bounded by the
fuel the sanitizer ran with. -/
theorem occursAt_sanitizeGo_le : ∀ (fuel : Nat) (v : Json) (n : Nat) (w : Json),
    OccursAt (sanitizeGo fuel v) n w → n ≤ fuel := by
  intro fuel
  induction fuel with
  | zero =>
    intro v n w hocc
    obtain ⟨h, -⟩ := occursAt_str hocc
    omega
  | succ f ih =>
    intro v n w hocc
    cases v with
    | null =>
      simp only [sanitizeGo] at hocc
      cases hocc; omega
    | bool b =>
      simp only [sanitizeGo] at hocc
      cases hocc; omega
    | num m =>
      simp only [sanitizeGo] at hocc
      cases hocc; omega
    | str s =>
      simp only [sanitizeGo] at hocc
      cases hocc; omega
    | arr xs =>
      simp only [sanitizeGo] at hocc
      cases hocc with
      | refl => omega
      | arr hx h =>
        obtain ⟨y, -, rfl⟩ := List.mem_map.mp hx
        have := ih y _ _ h
        omega
    | obj fs =>
      simp only [sanitizeGo] at hocc
      cases hocc with
      | refl => omega
      | obj hkv h =>
        obtain ⟨⟨k0, x0⟩, -, heq0⟩ := List.mem_map.mp hkv
        by_cases hs : SENSITIVE_KEYS.contains k0
        · rw [if_pos hs] at heq0
          rw [← heq0] at h
          obtain ⟨h0, -⟩ := occursAt_str h
          omega
        · rw [if_neg hs] at heq0
          rw [← heq0] at h
          have := ih x0 _ _ h
          omega

/-- C1 counterexample: the redaction of the transaction-logger sanitize
function is NOT case-insensitive.  The key Token equals the sensitive
key token under case-insensitive comparison, yet its value survives
sanitization unchanged instead of becoming the redaction marker. -/
theorem c1_case_insensitive_counterexample :
    sanitize (Json.obj [("Token", Json.str "tok123")]) =
      Json.obj [("Token", Json.str "tok123")] ∧
    "Token".data.map Char.toLower = "token".data ∧
    SENSITIVE_KEYS.contains "token" = true ∧
    "tok123" ≠ REDACTED_MARKER := by
  refine ⟨rfl, by decide, by decide, by decide⟩

/-- C1 (amended): for every key that EXACTLY (case-sensitively) equals a
member of the sensitive-key set, at any nesting depth at which the
enclosing mapping survives sanitization, the corresponding value in the
output is the redaction marker and never the original value.
Case-insensitive matches are not redacted (see the counterexample). -/
theorem c1_sanitize_redacts_exact_sensitive_keys
    (v : Json) (n : Nat) (fs : List (String × Json)) (k : String) (x : Json)
    (hocc : OccursAt (sanitize v) n (Json.obj fs))
    (hmem : (k, x) ∈ fs) (hk : SENSITIVE_KEYS.contains k) :
    x = Json.str REDACTED_MARKER :=
  sanitizeGo_sensitive_redacted 7 v n fs k x hocc hmem hk

/-- Witness for the amended C1 theorem at a concrete nested input. -/
theorem c1_sanitize_redacts_witness :
    Json.str REDACTED_MARKER = Json.str REDACTED_MARKER := by
  have hocc : OccursAt (sanitize (Json.obj [("a", Json.obj [("token", Json.str "t")])])) 1
      (Json.obj [("token", Json.str REDACTED_MARKER)]) := by
    have he : sanitize (Json.obj [("a", Json.obj [("token", Json.str "t")])]) =
        Json.obj [("a", Json.obj [("token", Json.str REDACTED_MARKER)])] := rfl
    rw [he]
    exact OccursAt.obj (List.mem_singleton.mpr rfl) (OccursAt.refl _)
  exact c1_sanitize_redacts_exact_sensitive_keys _ 1 _ "token" _ hocc
    (List.mem_singleton.mpr rfl) (by decide)

/-- C7: the sanitize function is idempotent at the default depth and
array limits: sanitizing an already-sanitized value changes nothing. -/
theorem c7_sanitize_idempotent (x : Json) : sanitize (sanitize x) = sanitize x :=
  sanitizeGo_idem 7 x

/-- C8: sanitize terminates on every input (it is a total function) and
replaces every subtree past the depth limit with the depth marker: a
call at depth greater than 6 returns the marker immediately, and in
consequence nothing in a sanitized output occurs deeper than 7 levels. -/
theorem c8_sanitize_depth_limit (v : Json) (d : Nat) :
    (6 < d → sanitize v d = Json.str DEPTH_MARKER) ∧
    (∀ n w, OccursAt (sanitize v) n w → n ≤ 7) := by
  constructor
  · intro h
    have h0 : 7 - d = 0 := by omega
    simp [sanitize, h0, sanitizeGo]
  · intro n w hocc
    exact occursAt_sanitizeGo_le 7 v n w hocc

/-- Witness for the C8 theorem at depth 7 and on a concrete occurrence. -/
theorem c8_sanitize_depth_limit_witness :
    sanitize Json.null 7 = Json.str DEPTH_MARKER ∧ (0 : Nat) ≤ 7 :=
  ⟨(c8_sanitize_depth_limit Json.null 7).1 (by omega),
   (c8_sanitize_depth_limit Json.null 0).2 0 Json.null (OccursAt.refl _)⟩

/-- Marker returned by toLimitedJson when serialization throws. -/
def UNSERIALIZABLE_MARKER : String := "[UNSERIALIZABLE]"

/-- The toLimitedJson closure of transaction-logger.ts (lines 63-73).
JSON.stringify and the crypto SHA-256 hex digest are Node built-ins,
external to this repository, so the serialization outcome is taken as
an input (none models a stringify call that throws, handled by the
catch branch) and the hex digest as the function parameter sha256Hex.
Byte length is measured in UTF-8 as Buffer.byteLength does, and the
preview keeps the first maxBytes characters as slice(0, maxBytes)
does. -/
def toLimitedJson (sha256Hex : String → String) (stringified : Option String)
    (maxBytes : Nat := 64 * 1024) : String :=
  match stringified with
  | none => UNSERIALIZABLE_MARKER
  | some s =>
    if s.utf8ByteSize ≤ maxBytes then s
    else s.take maxBytes ++ "...[TRUNCATED:" ++ sha256Hex s ++ "]"

/-- C4: if the serialization fits in maxBytes UTF-8 bytes the size
limiter returns it unchanged; if it exceeds maxBytes it returns the
first maxBytes characters followed by the truncation marker embedding
the hash of the full, untruncated serialization. -/
theorem c4_toLimitedJson_truncation (sha256Hex : String → String) (s : String)
    (maxBytes : Nat) :
    (s.utf8ByteSize ≤ maxBytes → toLimitedJson sha256Hex (some s) maxBytes = s) ∧
    (maxBytes < s.utf8ByteSize →
      toLimitedJson sha256Hex (some s) maxBytes =
        s.take maxBytes ++ "...[TRUNCATED:" ++ sha256Hex s ++ "]") := by
  constructor
  · intro h
    simp [toLimitedJson, h]
  · intro h
    simp [toLimitedJson, Nat.not_le.mpr h]

/-- Witness for the C4 theorem: a string within the budget and one
exceeding it. -/
theorem c4_toLimitedJson_truncation_witness :
    ("ab".utf8ByteSize ≤ 10 ∧ toLimitedJson (fun _ => "feedc0de") (some "ab") 10 = "ab") ∧
    (2 < "abcd".utf8ByteSize ∧
      toLimitedJson (fun _ => "feedc0de") (some "abcd") 2 =
        "abcd".take 2 ++ "...[TRUNCATED:" ++ "feedc0de" ++ "]") :=
  ⟨⟨by decide, (c4_toLimitedJson_truncation (fun _ => "feedc0de") "ab" 10).1 (by decide)⟩,
   ⟨by decide, (c4_toLimitedJson_truncation (fun _ => "feedc0de") "abcd" 2).2 (by decide)⟩⟩

/-- Retry configuration shared by the secrets loader and the Slack
client: maxAttempts and delayMs, from src/slack/index.ts lines 15-18. -/
structure RetryConfig where
  maxAttempts : Nat
  delayMs : Nat
deriving Repr, DecidableEq

/-- DEFAULT_RETRY_CONFIG from src/slack/index.ts (and the secrets
loader): 3 attempts, 1000 ms base delay. -/
def DEFAULT_RETRY_CONFIG : RetryConfig := ⟨3, 1000⟩

/-- A thrown JavaScript value: either an Error instance with a message,
or any other value together with its String(...) rendering. -/
inductive Thrown where
  | errObj (msg : String) : Thrown
  | other (rendered : String) : Thrown
deriving Repr, DecidableEq

/-- The catch-clause normalization in retryWithBackoff:
error instanceof Error ? error : new Error(String(error)). -/
def toError : Thrown → Thrown
  | .errObj m => .errObj m
  | .other s => .errObj s

/-- Observable trace of one retryWithBackoff run: the value returned or
error thrown, how many times the operation was invoked, and the delays
requested between attempts, in order. -/
structure RetryTrace (α : Type) where
  result : Except Thrown α
  invocations : Nat
  delays : List Nat
deriving Repr

/-- Recursion core of retryWithBackoff from src/slack/index.ts lines
165-191 (identical in the secrets loader): att is the 1-based attempt
counter of the for loop and the second argument the number of attempts
still allowed.  The operation is modeled as a map from attempt number
to its outcome.  On success the loop returns; on failure at the final
attempt the (normalized) last error is rethrown; otherwise a delay of
delayMs * 2 ^ (att - 1) is awaited and the loop continues. -/
def retryGo (op : Nat → Except Thrown α) (delayMs : Nat) (att : Nat) :
    Nat → RetryTrace α
  | 0 => ⟨.error (.errObj "lastError"), 0, []⟩
  | rem + 1 =>
    match op att with
    | .ok a => ⟨.ok a, 1, []⟩
    | .error e =>
      match rem with
      | 0 => ⟨.error (toError e), 1, []⟩
      | r + 1 =>
        let rest := retryGo op delayMs (att + 1) (r + 1)
        ⟨rest.result, rest.invocations + 1, delayMs * 2 ^ (att - 1) :: rest.delays⟩

/-- retryWithBackoff from src/slack/index.ts lines 165-191: run the
loop from attempt 1 with maxAttempts attempts allowed. -/
def retryWithBackoff (op : Nat → Except Thrown α) (cfg : RetryConfig := DEFAULT_RETRY_CONFIG) :
    RetryTrace α :=
  retryGo op cfg.delayMs 1 cfg.maxAttempts

theorem retryGo_invocations_le (op : Nat → Except Thrown α) (delayMs : Nat) :
    ∀ (rem att : Nat), (retryGo op delayMs att rem).invocations ≤ rem := by
  intro rem
  induction rem with
  | zero => intro att; simp [retryGo]
  | succ r ih =>
    intro att
    rw [retryGo]
    cases hop : op att with
    | ok a => simp
    | error e =>
      cases r with
      | zero => simp
      | succ r0 =>
        simp only
        have := ih (att + 1)
        omega

theorem retryGo_delays (op : Nat → Except Thrown α) (delayMs : Nat) :
    ∀ (rem att : Nat), 1 ≤ att →
      ∀ i, i < (retryGo op delayMs att rem).delays.length →
        (retryGo op delayMs att rem).delays.getD i 0 = delayMs * 2 ^ (att - 1 + i) := by
  intro rem
  induction rem with
  | zero => intro att _ i hi; simp [retryGo] at hi
  | succ r ih =>
    intro att hatt i hi
    rw [retryGo] at hi ⊢
    cases hop : op att with
    | ok a => rw [hop] at hi; simp at hi
    | error e =>
      rw [hop] at hi
      cases r with
      | zero => simp at hi
      | succ r0 =>
        simp only at hi ⊢
        cases i with
        | zero => simp
        | succ i0 =>
          simp only [List.length_cons] at hi
          have hlt : i0 < (retryGo op delayMs (att + 1) (r0 + 1)).delays.length := by omega
          have := ih (att + 1) (by omega) i0 hlt
          simp only [List.getD_cons_succ, this]
          have hexp : att + 1 - 1 + i0 = att - 1 + (i0 + 1) := by omega
          rw [hexp]

theorem retryGo_first_success (op : Nat → Except Thrown α) (delayMs : Nat) :
    ∀ (rem att k : Nat) (a : α), 1 ≤ att → att ≤ k → k < att + rem →
      op k = .ok a → (∀ j, att ≤ j → j < k → ∃ e, op j = .error e) →
      (retryGo op delayMs att rem).result = .ok a ∧
      (retryGo op delayMs att rem).invocations = k - att + 1 := by
  intro rem
  induction rem with
  | zero => intro att k a _ h1 h2 _ _; omega
  | succ r ih =>
    intro att k a hatt hak hkr hok hfail
    rw [retryGo]
    cases hop : op att with
    | ok b =>
      have hk : k = att := by
        by_contra hne
        have hlt : att < k := by omega
        obtain ⟨e, he⟩ := hfail att (le_refl att) hlt
        rw [hop] at he
        exact absurd he (by simp)
      subst hk
      rw [hop] at hok
      have hab : b = a := by
        injection hok
      subst hab
      constructor
      · rfl
      · simp
    | error e =>
      have hne : att < k := by
        rcases Nat.lt_or_ge att k with h | h
        · exact h
        · have hk : k = att := by omega
          subst hk
          rw [hop] at hok
          exact absurd hok (by simp)
      cases r with
      | zero => omega
      | succ r0 =>
        simp only
        have := ih (att + 1) k a (by omega) (by omega) (by omega) hok
          (fun j hj1 hj2 => hfail j (by omega) hj2)
        refine ⟨this.1, ?_⟩
        rw [this.2]
        omega

/-- C5: for a positive maxAttempts, retryWithBackoff invokes the
operation at most maxAttempts times, returns the result of the first
successful attempt (invoking the operation exactly that many times),
and the i-th delay it requests (the one before attempt i + 2) is
exactly delayMs * 2 ^ i. -/
theorem c5_retryWithBackoff_spec (op : Nat → Except Thrown α) (cfg : RetryConfig)
    (hpos : 1 ≤ cfg.maxAttempts) :
    (retryWithBackoff op cfg).invocations ≤ cfg.maxAttempts ∧
    (∀ k a, 1 ≤ k → k ≤ cfg.maxAttempts → op k = .ok a →
      (∀ j, 1 ≤ j → j < k → ∃ e, op j = .error e) →
      (retryWithBackoff op cfg).result = .ok a ∧
      (retryWithBackoff op cfg).invocations = k) ∧
    (∀ i, i < (retryWithBackoff op cfg).delays.length →
      (retryWithBackoff op cfg).delays.getD i 0 = cfg.delayMs * 2 ^ i) := by
  refine ⟨retryGo_invocations_le op cfg.delayMs cfg.maxAttempts 1, ?_, ?_⟩
  · intro k a hk1 hk2 hok hfail
    have := retryGo_first_success op cfg.delayMs cfg.maxAttempts 1 k a (le_refl 1) hk1
      (by omega) hok hfail
    refine ⟨this.1, ?_⟩
    have h2 : (retryWithBackoff op cfg).invocations = k - 1 + 1 := this.2
    omega
  · intro i hi
    have := retryGo_delays op cfg.delayMs cfg.maxAttempts 1 (le_refl 1) i hi
    simpa using this

/-- Operation used by the retry witnesses: fails on attempts 1 and 2,
succeeds on attempt 3. -/
def opThirdTry : Nat → Except Thrown Nat :=
  fun n => if n < 3 then .error (.errObj "fail") else .ok n

/-- Witness for the C5 theorem on a concrete operation succeeding at
the third attempt under the default retry configuration. -/
theorem c5_retryWithBackoff_spec_witness :
    (retryWithBackoff opThirdTry DEFAULT_RETRY_CONFIG).result = Except.ok 3 ∧
    (retryWithBackoff opThirdTry DEFAULT_RETRY_CONFIG).invocations = 3 ∧
    (retryWithBackoff opThirdTry DEFAULT_RETRY_CONFIG).delays.getD 1 0 = 1000 * 2 ^ 1 := by
  have h := c5_retryWithBackoff_spec opThirdTry DEFAULT_RETRY_CONFIG (by decide)
  have hfail : ∀ j, 1 ≤ j → j < 3 → ∃ e, opThirdTry j = .error e :=
    fun j _ hj => ⟨.errObj "fail", by simp [opThirdTry, hj]⟩
  have hs := h.2.1 3 3 (by decide) (by decide) rfl hfail
  exact ⟨hs.1, hs.2, h.2.2 1 (by decide)⟩

theorem retryGo_all_fail (op : Nat → Except Thrown α) (delayMs : Nat) :
    ∀ (rem att : Nat), 1 ≤ rem →
      (∀ j, att ≤ j → j < att + rem → ∃ e, op j = .error e) →
      ∃ e, op (att + rem - 1) = .error e ∧
        (retryGo op delayMs att rem).result = .error (toError e) := by
  intro rem
  induction rem with
  | zero => intro att h0 _; omega
  | succ r ih =>
    intro att _ hfail
    obtain ⟨e0, he0⟩ := hfail att (le_refl att) (by omega)
    rw [retryGo, he0]
    cases r with
    | zero =>
      refine ⟨e0, ?_, rfl⟩
      simpa using he0
    | succ r0 =>
      simp only
      obtain ⟨e, he, hres⟩ := ih (att + 1) (by omega)
        (fun j hj1 hj2 => hfail j (by omega) (by omega))
      refine ⟨e, ?_, hres⟩
      have harith : att + 1 + (r0 + 1) - 1 = att + (r0 + 1 + 1) - 1 := by omega
      rw [← harith]
      exact he

/-- C6 counterexample: on exhausting all attempts, retryWithBackoff
re-raises the failure of the last attempt completely unmodified — here
the Error thrown by attempt 3 comes back as-is, with no wrapper that
would let the caller distinguish retries-exhausted from the cause. -/
def opAlwaysFail : Nat → Except Thrown Nat := fun n =>
  if n = 1 then .error (.errObj "e1")
  else if n = 2 then .error (.errObj "e2")
  else .error (.errObj "e3")

theorem c6_unwrapped_counterexample :
    (retryWithBackoff opAlwaysFail DEFAULT_RETRY_CONFIG).result =
      .error (.errObj "e3") ∧
    opAlwaysFail 3 = .error (.errObj "e3") :=
  ⟨rfl, rfl⟩

/-- C6 (amended): when every attempt fails, retryWithBackoff raises
exactly the last attempt's failure: an Error instance is re-raised
unmodified, and a non-Error thrown value is coerced to an Error carrying
its string rendering (the catch-clause normalization); there is no
exhaustion-specific wrapping distinguishing the outcome. -/
theorem c6_retry_exhaustion_raises_last (op : Nat → Except Thrown α)
    (cfg : RetryConfig) (hpos : 1 ≤ cfg.maxAttempts)
    (hfail : ∀ j, 1 ≤ j → j ≤ cfg.maxAttempts → ∃ e, op j = .error e) :
    ∃ e, op cfg.maxAttempts = .error e ∧
      (retryWithBackoff op cfg).result = .error (toError e) := by
  have h := retryGo_all_fail op cfg.delayMs cfg.maxAttempts 1 hpos
    (fun j hj1 hj2 => hfail j hj1 (by omega))
  simpa using h

/-- Witness for the amended C6 theorem on a concrete always-failing
operation under the default configuration. -/
theorem c6_retry_exhaustion_witness :
    ∃ e, opAlwaysFail DEFAULT_RETRY_CONFIG.maxAttempts = .error e ∧
      (retryWithBackoff opAlwaysFail DEFAULT_RETRY_CONFIG).result =
        .error (toError e) := by
  refine c6_retry_exhaustion_raises_last opAlwaysFail DEFAULT_RETRY_CONFIG
    (by decide) ?_
  intro j h1 h2
  have h3 : j ≤ 3 := h2
  interval_cases j
  · exact ⟨.errObj "e1", rfl⟩
  · exact ⟨.errObj "e2", rfl⟩
  · exact ⟨.errObj "e3", rfl⟩

/-- Events a response emits that are relevant to the middleware: the
finish event of the response stream and calls to res.send. -/
inductive REvent where
  | finish : REvent
  | send : REvent
deriving Repr, DecidableEq

/-- Dispatch behavior of transactionLoggerMiddleware: the record hand-
off is registered solely through res.once(finish, ...) at line 123 of
transaction-logger.ts, and res.send is not wrapped.  EventEmitter.once
(external Node primitive) removes the listener on first invocation;
fired is that one-shot state.  The function counts how many times the
dispatch callback runs over a given emitted-event sequence. -/
def finishDispatches (fired : Bool) : List REvent → Nat
  | [] => 0
  | REvent.finish :: tr =>
      if fired then finishDispatches fired tr
      else 1 + finishDispatches true tr
  | REvent.send :: tr => finishDispatches fired tr

/-- Number of record dispatches the middleware performs for one request
whose response emits the given event sequence. -/
def middlewareDispatchCount (events : List REvent) : Nat :=
  finishDispatches false events

theorem finishDispatches_fired : ∀ tr, finishDispatches true tr = 0 := by
  intro tr
  induction tr with
  | nil => rfl
  | cons e tr ih => cases e <;> simp [finishDispatches, ih]

/-- C2 (amended): for the finish-registered transactionLoggerMiddleware
(the current middlewares module implementation) exactly one record is
dispatched per request, at the response-finish event: any event
sequence containing a finish event (duplicates and send calls included)
produces exactly one dispatch, and send calls alone produce none.  The
legacy send-wrapping variant does not satisfy this (see the
counterexample). -/
theorem c2_exactly_once_dispatch (events : List REvent) :
    (REvent.finish ∈ events → middlewareDispatchCount events = 1) ∧
    (REvent.finish ∉ events → middlewareDispatchCount events = 0) := by
  constructor
  · intro hmem
    rw [middlewareDispatchCount]
    induction events with
    | nil => cases hmem
    | cons e tr ih =>
      cases e with
      | finish => simp [finishDispatches, finishDispatches_fired]
      | send =>
        have : REvent.finish ∈ tr := by
          cases hmem with
          | tail _ h => exact h
        simp [finishDispatches, ih this]
  · intro hmem
    rw [middlewareDispatchCount]
    induction events with
    | nil => rfl
    | cons e tr ih =>
      cases e with
      | finish => exact absurd (List.mem_cons_self _ _) hmem
      | send =>
        have : REvent.finish ∉ tr := fun h => hmem (List.mem_cons_of_mem _ h)
        simp [finishDispatches, ih this]

/-- Dispatch counting of the legacy transaction-logging middleware
variant (the transactionLoggerMiddleware revision kept alongside the
current one, and the transactionLogger middleware of the middleware
module): res.send is replaced by a wrapper that assembles the record
and schedules one dispatch on every invocation before delegating to the
original send, and nothing is registered on the finish event. -/
def legacySendDispatches : List REvent → Nat
  | [] => 0
  | REvent.send :: tr => 1 + legacySendDispatches tr
  | REvent.finish :: tr => legacySendDispatches tr

/-- C2 counterexample: the repository also ships a send-wrapping
transaction-logging middleware for which the claim fails — it
dispatches at send-call time (one dispatch with no finish event at
all), and a repeated send call causes a second dispatch of the same
request's record. -/
theorem c2_legacy_send_counterexample :
    legacySendDispatches [REvent.send, REvent.send, REvent.finish] = 2 ∧
    (2 : Nat) ≠ 1 ∧
    legacySendDispatches [REvent.send] = 1 ∧
    middlewareDispatchCount [REvent.send] = 0 :=
  ⟨rfl, by decide, rfl, rfl⟩

/-- Witness for C2: duplicate finish events and interleaved send calls
still dispatch exactly once, and send calls alone dispatch nothing. -/
theorem c2_exactly_once_dispatch_witness :
    middlewareDispatchCount [REvent.send, REvent.finish, REvent.finish, REvent.send] = 1 ∧
    middlewareDispatchCount [REvent.send, REvent.send] = 0 :=
  ⟨(c2_exactly_once_dispatch _).1 (by decide),
   (c2_exactly_once_dispatch _).2 (by decide)⟩

/-- Outcome of the deferred dispatch task: whether an exception escaped
it, and the fallback entries written to the local console channel. -/
structure DispatchOutcome where
  raised : Option String
  fallbackLog : List String
deriving Repr, DecidableEq

/-- The setImmediate callback of transactionLoggerMiddleware (lines
175-186): it awaits the sink's logTransaction and, when that rejects,
catches the error inside the task and writes one console.error fallback
entry carrying the transaction context and the error message; nothing
is rethrown.  The sink outcome is the input. -/
def dispatchTask (transactionId microservice operation : String)
    (sinkResult : Except String Unit) : DispatchOutcome :=
  match sinkResult with
  | .ok _ => ⟨none, []⟩
  | .error msg =>
      ⟨none, ["Erro ao registrar log transacional: " ++ transactionId ++ " " ++
              microservice ++ " " ++ operation ++ " " ++ msg]⟩

/-- The response as already sent to the client when the finish event
fires; the dispatch task runs afterwards and independently. -/
structure HttpResponse where
  statusCode : Nat
  body : String
deriving Repr, DecidableEq

/-- Composition of the already-sent response with the deferred dispatch
task triggered at response-finish. -/
def finishThenDispatch (resp : HttpResponse) (txId ms op : String)
    (sinkResult : Except String Unit) : HttpResponse × DispatchOutcome :=
  (resp, dispatchTask txId ms op sinkResult)

/-- C3: whatever the sink outcome, no exception propagates out of the
dispatch and the already-sent response is unchanged; a rejection
produces exactly a local fallback log entry, a fulfilled sink call
produces none. -/
theorem c3_sink_failure_isolated (resp : HttpResponse) (txId ms op : String)
    (sinkResult : Except String Unit) :
    (finishThenDispatch resp txId ms op sinkResult).1 = resp ∧
    (finishThenDispatch resp txId ms op sinkResult).2.raised = none ∧
    (∀ e, sinkResult = .error e →
      (finishThenDispatch resp txId ms op sinkResult).2.fallbackLog ≠ []) ∧
    (sinkResult = .ok () →
      (finishThenDispatch resp txId ms op sinkResult).2.fallbackLog = []) := by
  refine ⟨rfl, ?_, ?_, ?_⟩
  · cases sinkResult <;> rfl
  · intro e he
    subst he
    simp [finishThenDispatch, dispatchTask]
  · intro he
    subst he
    rfl

/-- Witness for C3 at a concrete rejected sink call. -/
theorem c3_sink_failure_isolated_witness :
    (finishThenDispatch ⟨200, "ok"⟩ "tx1" "ms" "op" (.error "econnrefused")).1 =
      (⟨200, "ok"⟩ : HttpResponse) ∧
    (finishThenDispatch ⟨200, "ok"⟩ "tx1" "ms" "op" (.error "econnrefused")).2.raised = none ∧
    (finishThenDispatch ⟨200, "ok"⟩ "tx1" "ms" "op" (.error "econnrefused")).2.fallbackLog ≠ [] := by
  have h := c3_sink_failure_isolated ⟨200, "ok"⟩ "tx1" "ms" "op" (.error "econnrefused")
  exact ⟨h.1, h.2.1, h.2.2.1 "econnrefused" rfl⟩

/-- Request state relevant to transaction-identifier resolution: the
request-scoped transactionId field and the two inbound headers the
source consults (absent headers modeled as none). -/
structure ReqState where
  transactionId : Option String
  xTransactionId : Option String
  xRequestId : Option String
deriving Repr, DecidableEq

/-- The header fallback chain x-transaction-id, then x-request-id, as
chained by the JavaScript or-operator. -/
def headerTxId (r : ReqState) : Option String :=
  r.xTransactionId.orElse (fun _ => r.xRequestId)

/-- Identifier resolution of transactionLoggerMiddleware
(transaction-logger.ts lines 24-30): inbound headers first, else a
freshly generated tx identifier (the Date.now and Math.random call is
the oracle parameter fresh).  The existing req.transactionId is never
consulted; the result is assigned to req.transactionId. -/
def loggerResolveTxId (fresh : String) (r : ReqState) : ReqState × String :=
  let t := (headerTxId r).getD fresh
  ({ r with transactionId := some t }, t)

/-- addTransactionId (transaction-logger.ts lines 193-208): assigns a
resolved identifier only when req.transactionId is not already set, and
exposes the request-scoped identifier. -/
def addTransactionIdResolve (fresh : String) (r : ReqState) : ReqState × String :=
  match r.transactionId with
  | some t => (r, t)
  | none =>
    let t := (headerTxId r).getD fresh
    ({ r with transactionId := some t }, t)

/-- C9 counterexample: with no inbound identifier headers, applying
addTransactionId and then transactionLoggerMiddleware to the same
request regenerates the identifier: the second resolution returns the
logger's fresh value, not the identifier already assigned. -/
theorem c9_regeneration_counterexample :
    (loggerResolveTxId "tx_200_bbb"
        (addTransactionIdResolve "tx_100_aaa" ⟨none, none, none⟩).1).2 = "tx_200_bbb" ∧
    (addTransactionIdResolve "tx_100_aaa" ⟨none, none, none⟩).2 = "tx_100_aaa" ∧
    "tx_200_bbb" ≠ "tx_100_aaa" :=
  ⟨rfl, rfl, by decide⟩

/-- C9 (amended): re-applying addTransactionId is idempotent — the
second application returns the identifier already assigned and leaves
the request unchanged — and when an inbound x-transaction-id or
x-request-id header is present both middlewares resolve to the header
value, so cross-middleware stability holds exactly in that case (the
counterexample shows it fails without inbound headers). -/
theorem c9_resolution_idempotence (f1 f2 : String) (r : ReqState) :
    (addTransactionIdResolve f2 (addTransactionIdResolve f1 r).1).2 =
      (addTransactionIdResolve f1 r).2 ∧
    (addTransactionIdResolve f2 (addTransactionIdResolve f1 r).1).1 =
      (addTransactionIdResolve f1 r).1 ∧
    (∀ h, r.transactionId = none → headerTxId r = some h →
      (addTransactionIdResolve f1 r).2 = h ∧
      (loggerResolveTxId f2 (addTransactionIdResolve f1 r).1).2 = h) := by
  refine ⟨?_, ?_, ?_⟩
  · cases hr : r.transactionId <;>
      simp [addTransactionIdResolve, hr, headerTxId]
  · cases hr : r.transactionId <;>
      simp [addTransactionIdResolve, hr, headerTxId]
  · intro h hnone hhdr
    simp [addTransactionIdResolve, loggerResolveTxId, hnone, headerTxId] at hhdr ⊢
    cases hx : r.xTransactionId with
    | some t => simp [hx] at hhdr ⊢; simp [hhdr]
    | none => simp [hx] at hhdr ⊢; simp [hhdr]

/-- Witness for the amended C9 theorem: a request carrying an inbound
x-transaction-id header resolves to it through both middlewares, and a
request with none keeps its first assigned identifier across repeated
addTransactionId applications. -/
theorem c9_resolution_idempotence_witness :
    (addTransactionIdResolve "f2"
        (addTransactionIdResolve "f1" ⟨none, some "abc123", none⟩).1).2 =
      (addTransactionIdResolve "f1" ⟨none, some "abc123", none⟩).2 ∧
    (addTransactionIdResolve "f1" ⟨none, some "abc123", none⟩).2 = "abc123" ∧
    (loggerResolveTxId "f2"
        (addTransactionIdResolve "f1" ⟨none, some "abc123", none⟩).1).2 = "abc123" := by
  have h := c9_resolution_idempotence "f1" "f2" ⟨none, some "abc123", none⟩
  have h3 := h.2.2 "abc123" rfl rfl
  exact ⟨h.1, h3.1, h3.2⟩

/-- DEFAULT_SENSITIVE_FIELDS from the utils sensitive-data module, in
source order.  Note several entries are mixed-case. -/
def DEFAULT_SENSITIVE_FIELDS : List String :=
  ["password", "token", "secret", "authorization", "creditCard",
   "credit_card", "ssn", "social_security_number", "api_key", "apiKey",
   "access_token", "refresh_token", "private_key", "privateKey",
   "certificate", "key", "passphrase", "pin", "cvv", "cvc",
   "security_code"]

/-- Character-wise lowercasing, the kernel-computable counterpart of
String.prototype.toLowerCase as used on these ASCII field names. -/
def strToLower (s : String) : String :=
  String.mk (s.data.map Char.toLower)

def listHasPre : List Char → List Char → Bool
  | [], _ => true
  | _ :: _, [] => false
  | a :: as, b :: bs => a == b && listHasPre as bs

def listIncludes (needle : List Char) : List Char → Bool
  | [] => listHasPre needle []
  | c :: rest => listHasPre needle (c :: rest) || listIncludes needle rest

/-- String.prototype.includes: substring containment. -/
def strIncludes (s sub : String) : Bool :=
  listIncludes sub.data s.data

/-- isSensitiveField from the utils sensitive-data module: true when
the lowercased field name CONTAINS (as a substring) the lowercasing of
some default sensitive field. -/
def isSensitiveField (fieldName : String) : Bool :=
  DEFAULT_SENSITIVE_FIELDS.any
    (fun sensitiveField => strIncludes (strToLower fieldName) (strToLower sensitiveField))

mutual

/-- filterSensitiveData from the utils sensitive-data module: non-object
values pass through; arrays recurse element-wise; for an object, a key
whose LOWERCASED form is literally an element of the combined
default-plus-custom list (which itself is not lowercased) is redacted,
object- or array-valued entries recurse, and other values are copied. -/
def filterSensitiveData (custom : List String) : Json → Json
  | .arr xs => .arr (filterSensitiveDataList custom xs)
  | .obj fs => .obj (filterSensitiveDataFields custom fs)
  | v => v

def filterSensitiveDataList (custom : List String) : List Json → List Json
  | [] => []
  | x :: xs => filterSensitiveData custom x :: filterSensitiveDataList custom xs

def filterSensitiveDataFields (custom : List String) :
    List (String × Json) → List (String × Json)
  | [] => []
  | (k, v) :: fs =>
    (if (DEFAULT_SENSITIVE_FIELDS ++ custom).contains (strToLower k) then
        (k, Json.str REDACTED_MARKER)
      else
        match v with
        | .obj gs => (k, Json.obj (filterSensitiveDataFields custom gs))
        | .arr xs => (k, Json.arr (filterSensitiveDataList custom xs))
        | w => (k, w)) :: filterSensitiveDataFields custom fs

end

/-- C10: filterSensitiveData redacts a primitive-valued entry exactly
when the lowercased key is literally an element of the combined list;
since the list itself is not lowercased, the keys creditCard, apiKey
and privateKey — all members of DEFAULT_SENSITIVE_FIELDS which
isSensitiveField classifies as sensitive — pass through with their
original values intact. -/
theorem c10_filterSensitiveData_lowercase_gap :
    (∀ (custom : List String) (k s : String),
      filterSensitiveData custom (Json.obj [(k, Json.str s)]) =
        Json.obj [(k,
          if (DEFAULT_SENSITIVE_FIELDS ++ custom).contains (strToLower k) then
            Json.str REDACTED_MARKER
          else Json.str s)]) ∧
    filterSensitiveData [] (Json.obj [("creditCard", Json.str "4111-1111")]) =
      Json.obj [("creditCard", Json.str "4111-1111")] ∧
    filterSensitiveData [] (Json.obj [("apiKey", Json.str "k1")]) =
      Json.obj [("apiKey", Json.str "k1")] ∧
    filterSensitiveData [] (Json.obj [("privateKey", Json.str "k2")]) =
      Json.obj [("privateKey", Json.str "k2")] ∧
    DEFAULT_SENSITIVE_FIELDS.contains "creditCard" = true ∧
    DEFAULT_SENSITIVE_FIELDS.contains "apiKey" = true ∧
    DEFAULT_SENSITIVE_FIELDS.contains "privateKey" = true ∧
    isSensitiveField "creditCard" = true ∧
    isSensitiveField "apiKey" = true ∧
    isSensitiveField "privateKey" = true := by
  have hgen : ∀ (custom : List String) (k s : String),
      filterSensitiveData custom (Json.obj [(k, Json.str s)]) =
        Json.obj [(k,
          if (DEFAULT_SENSITIVE_FIELDS ++ custom).contains (strToLower k) then
            Json.str REDACTED_MARKER
          else Json.str s)] := by
    intro custom k s
    simp only [filterSensitiveData, filterSensitiveDataFields]
    by_cases hc : (DEFAULT_SENSITIVE_FIELDS ++ custom).contains (strToLower k)
    · rw [if_pos hc, if_pos hc]
    · rw [if_neg hc, if_neg hc]
  refine ⟨hgen, ?_, ?_, ?_, by decide, by decide, by decide, by decide, by decide, by decide⟩
  · rw [hgen]
    have hc : ¬ ((DEFAULT_SENSITIVE_FIELDS ++ ([] : List String)).contains
        (strToLower "creditCard") = true) := by decide
    rw [if_neg hc]
  · rw [hgen]
    have hc : ¬ ((DEFAULT_SENSITIVE_FIELDS ++ ([] : List String)).contains
        (strToLower "apiKey") = true) := by decide
    rw [if_neg hc]
  · rw [hgen]
    have hc : ¬ ((DEFAULT_SENSITIVE_FIELDS ++ ([] : List String)).contains
        (strToLower "privateKey") = true) := by decide
    rw [if_neg hc]

end StarHelper
